import Mathlib

/-!
Verification of the job-orchestration and progress-tracking layer of the
Twitter video downloader web service, shallowly embedded from
`twitter_downloader.py` and `web_server.py`.

Numbers (machine ints/floats of the source) are modelled as `Nat`; Python
dictionaries whose keys are fixed in the source are modelled as structures
whose optional fields model keys that may be absent or hold `None`;
Python exceptions are modelled with `Except`/`Option`.  The external
extraction engine (yt-dlp) is a black box: its observable behaviour on one
request (the probe outcome, the progress-hook events fired during a
download, and the fetch outcome) is a parameter of the embedded functions.
-/

namespace TVD

/-! ### Python string primitives -/

/-- Word characters of the regex class `\w`, modelled on its ASCII part. -/
def isWordChar (c : Char) : Bool := c.isAlphanum || c = '_'

/-- Whitespace stripped by Python `str.strip()` (ASCII part). -/
def isPySpace (c : Char) : Bool :=
  c = ' ' || c = '\t' || c = '\n' || c = '\r' || c = '\x0b' || c = '\x0c'

/-- Python `str.strip()` on the character list. -/
def pyStripList (l : List Char) : List Char :=
  ((l.dropWhile isPySpace).reverse.dropWhile isPySpace).reverse

/-- Python `str.strip()`. -/
def pyStrip (s : String) : String := ⟨pyStripList s.data⟩

/-- Python `str.lower()` (ASCII part). -/
def pyLower (s : String) : String := ⟨s.data.map Char.toLower⟩

/-- Does the second list start with the first one? -/
def litTest : List Char → List Char → Bool
  | [], _ => true
  | _ :: _, [] => false
  | n :: ns, h :: hs => n == h && litTest ns hs

/-- Python substring containment `needle in hay` on character lists. -/
def hasSub (needle : List Char) : List Char → Bool
  | [] => litTest needle []
  | c :: cs => litTest needle (c :: cs) || hasSub needle cs

/-- Python `needle in hay` on strings. -/
def pyContains (hay needle : String) : Bool := hasSub needle.data hay.data

/-! ### The URL validator, `TwitterDownloader.is_valid_twitter_url`

The source checks `re.match(p, url)` for the three patterns
`https?://(?:www\.)?twitter\.com/\w+/status/\d+`,
`https?://(?:www\.)?x\.com/\w+/status/\d+` and `https?://t\.co/\w+`.
`re.match` anchors at the string start only, so a match consumes some
prefix of the input and ignores the rest.  Because `/` and `:` are not
word characters and the literal following each optional piece cannot
overlap with it, the regexes are deterministic and are embedded as a
straight-line prefix parser.  The literal pieces are named once so that
proof terms stay syntactically stable. -/

/-- The literal `http`. -/
def httpL : List Char := "http".data

/-- The literal `s` (the optional scheme suffix). -/
def sL : List Char := "s".data

/-- The literal `://`. -/
def sepL : List Char := "://".data

/-- The literal `www.`. -/
def wwwL : List Char := "www.".data

/-- The literal `/status/`. -/
def statusL : List Char := "/status/".data

/-- The literal `twitter.com/`. -/
def twitterL : List Char := "twitter.com/".data

/-- The literal `x.com/`. -/
def xL : List Char := "x.com/".data

/-- The literal `t.co/`. -/
def tcoL : List Char := "t.co/".data

/-- The literal `https://`. -/
def httpsFullL : List Char := "https://".data

/-- The literal `http://`. -/
def httpFullL : List Char := "http://".data

/-- Consume an exact literal from the front, or fail. -/
def dropLit : List Char → List Char → Option (List Char)
  | [], s => some s
  | _ :: _, [] => none
  | l :: ls, c :: cs => if c = l then dropLit ls cs else none

/-- Consume an optional literal from the front (greedy, as in the regex). -/
def dropOpt (lit : List Char) (s : List Char) : List Char :=
  match dropLit lit s with
  | some r => r
  | none => s

/-- Test that the input starts with at least one digit. -/
def headDigit : List Char → Bool
  | d :: _ => d.isDigit
  | [] => false

/-- Match `\w+/status/\d+` as a prefix of the input. -/
def matchHostTail : List Char → Bool
  | [] => false
  | c :: cs =>
    if isWordChar c then
      match dropLit statusL (cs.dropWhile isWordChar) with
      | some r => headDigit r
      | none => false
    else false

/-- Match `\w+` (one word character is enough for a prefix match). -/
def matchWordTail : List Char → Bool
  | c :: _ => isWordChar c
  | [] => false

/-- Consume `https?://` from the front. -/
def afterScheme (s : List Char) : Option (List Char) :=
  match dropLit httpL s with
  | none => none
  | some s1 => dropLit sepL (dropOpt sL s1)

/-- Match `(?:www\.)?<host><tail>` against the part after the scheme. -/
def statusTail (host : List Char) (s2 : List Char) : Bool :=
  match dropLit host (dropOpt wwwL s2) with
  | none => false
  | some s3 => matchHostTail s3

/-- Match `https?://(?:www\.)?<host>\w+/status/\d+` where `host` ends in `/`. -/
def matchStatusPat (host : List Char) (s : List Char) : Bool :=
  match afterScheme s with
  | none => false
  | some s2 => statusTail host s2

/-- Match `t\.co/\w+` against the part after the scheme. -/
def tcoTail (s2 : List Char) : Bool :=
  match dropLit tcoL s2 with
  | none => false
  | some s3 => matchWordTail s3

/-- Match `https?://t\.co/\w+`. -/
def matchTcoPat (s : List Char) : Bool :=
  match afterScheme s with
  | none => false
  | some s2 => tcoTail s2

/-- `TwitterDownloader.is_valid_twitter_url`: any of the three patterns
matches at the start of the string. -/
def is_valid_twitter_url (url : String) : Bool :=
  matchStatusPat twitterL url.data ||
    matchStatusPat xL url.data ||
      matchTcoPat url.data

/-! ### Declarative shapes of the documented URL forms (spec side of C8) -/

/-- The scheme part of a shape, `http://` or `https://`. -/
def SchemeStr (ssl : Bool) : List Char :=
  if ssl then httpsFullL else httpFullL

/-- The optional `www.` part of a shape. -/
def WwwStr (w : Bool) : List Char := if w then wwwL else []

/-- A full status-URL shape over the given host (`twitter.com/` or
`x.com/`): scheme, optional `www.`, host, a nonempty username of word
characters, `/status/`, and a nonempty run of digits. -/
def IsStatusShape (host : List Char) (l : List Char) : Prop :=
  ∃ (ssl w : Bool) (user digits : List Char),
    l = SchemeStr ssl ++ WwwStr w ++ host ++ user ++ statusL ++ digits ∧
      user ≠ [] ∧ (∀ c ∈ user, isWordChar c = true) ∧
      digits ≠ [] ∧ (∀ c ∈ digits, c.isDigit = true)

/-- The link-shortener shape: scheme, `t.co/`, and a nonempty run of word
characters. -/
def IsTcoShape (l : List Char) : Prop :=
  ∃ (ssl : Bool) (w : List Char),
    l = SchemeStr ssl ++ tcoL ++ w ∧ w ≠ [] ∧ ∀ c ∈ w, isWordChar c = true

/-- The spec acceptance predicate: the string starts with one of the three
documented shapes, i.e. some prefix of it is exactly a shape. -/
def SpecAccepted (s : String) : Prop :=
  ∃ p rest, s.data = p ++ rest ∧
    (IsStatusShape twitterL p ∨ IsStatusShape xL p ∨ IsTcoShape p)

/-! ### Correctness lemmas for the prefix parser -/

theorem dropLit_eq_some : ∀ (lit s r : List Char), dropLit lit s = some r ↔ s = lit ++ r
  | [], s, r => by simp [dropLit]
  | _ :: _, [], _ => by simp [dropLit]
  | l :: ls, c :: cs, r => by
    simp only [dropLit, List.cons_append, List.cons.injEq]
    by_cases h : c = l
    · simp [h, dropLit_eq_some ls cs r]
    · simp [h]

theorem dropLit_self (lit r : List Char) : dropLit lit (lit ++ r) = some r :=
  (dropLit_eq_some lit (lit ++ r) r).2 rfl

theorem dropOpt_cases (lit s : List Char) : s = lit ++ dropOpt lit s ∨ dropOpt lit s = s := by
  unfold dropOpt
  cases h : dropLit lit s with
  | some r => exact Or.inl ((dropLit_eq_some lit s r).1 h)
  | none => exact Or.inr rfl

theorem dropWhile_append_all {p : Char → Bool} :
    ∀ {a : List Char} (b : List Char), (∀ c ∈ a, p c = true) →
      (a ++ b).dropWhile p = b.dropWhile p
  | [], _, _ => rfl
  | c :: cs, b, h => by
    have hc : p c = true := h c (by simp)
    simp only [List.cons_append, List.dropWhile_cons, hc, if_true]
    exact dropWhile_append_all b (fun x hx => h x (by simp [hx]))

theorem afterScheme_eq_some {s t : List Char} (h : afterScheme s = some t) :
    ∃ ssl, s = SchemeStr ssl ++ t := by
  unfold afterScheme at h
  cases h1 : dropLit httpL s with
  | none => rw [h1] at h; cases h
  | some s1 =>
    rw [h1] at h
    have hs1 : s = httpL ++ s1 := (dropLit_eq_some _ _ _).1 h1
    have h2 : dropOpt sL s1 = sepL ++ t := (dropLit_eq_some _ _ _).1 h
    rcases dropOpt_cases sL s1 with h3 | h3
    · refine ⟨true, ?_⟩
      rw [hs1, h3, h2]
      have e : httpL ++ (sL ++ sepL) = httpsFullL := by decide
      simp only [← List.append_assoc]
      simp only [List.append_assoc httpL sL sepL, e]
      simp [SchemeStr]
    · refine ⟨false, ?_⟩
      rw [hs1, ← h3, h2]
      have e : httpL ++ sepL = httpFullL := by decide
      simp only [← List.append_assoc, e]
      simp [SchemeStr]

theorem matchHostTail_true_iff (s : List Char) :
    matchHostTail s = true ↔
      ∃ user d rest, s = user ++ statusL ++ d :: rest ∧
        user ≠ [] ∧ (∀ c ∈ user, isWordChar c = true) ∧ d.isDigit = true := by
  constructor
  · intro h
    match s, h with
    | c :: cs, h =>
      simp only [matchHostTail] at h
      by_cases hc : isWordChar c = true
      · rw [if_pos hc] at h
        cases h2 : dropLit statusL (cs.dropWhile isWordChar) with
        | none => rw [h2] at h; cases h
        | some r =>
          rw [h2] at h
          match r, h with
          | d :: rest, h =>
            refine ⟨c :: cs.takeWhile isWordChar, d, rest, ?_, by simp, ?_, h⟩
            · have e1 : cs = cs.takeWhile isWordChar ++ cs.dropWhile isWordChar :=
                (List.takeWhile_append_dropWhile ..).symm
              have e2 : cs.dropWhile isWordChar = statusL ++ d :: rest :=
                (dropLit_eq_some _ _ _).1 h2
              conv_lhs => rw [e1, e2]
              simp
            · intro x hx
              rcases List.mem_cons.1 hx with rfl | hx
              · exact hc
              · exact List.mem_takeWhile_imp hx
      · rw [if_neg hc] at h; cases h
  · rintro ⟨user, d, rest, rfl, hne, hword, hd⟩
    match user, hne with
    | u :: us, _ =>
      have hu : isWordChar u = true := hword u (by simp)
      have hus : ∀ c ∈ us, isWordChar c = true := fun c hc => hword c (by simp [hc])
      show matchHostTail (u :: (us ++ statusL ++ d :: rest)) = true
      simp only [matchHostTail]
      rw [if_pos hu]
      have e : (us ++ statusL ++ d :: rest).dropWhile isWordChar =
          statusL ++ d :: rest := by
        rw [List.append_assoc]
        rw [dropWhile_append_all _ hus]
        rfl
      rw [e, dropLit_self]
      exact hd

theorem matchTwitter_of (ssl w : Bool) (T : List Char) :
    matchStatusPat twitterL
      (SchemeStr ssl ++ (WwwStr w ++ (twitterL ++ T))) = matchHostTail T := by
  cases ssl <;> cases w <;> rfl

theorem matchX_of (ssl w : Bool) (T : List Char) :
    matchStatusPat xL
      (SchemeStr ssl ++ (WwwStr w ++ (xL ++ T))) = matchHostTail T := by
  cases ssl <;> cases w <;> rfl

theorem matchTco_of (ssl : Bool) (T : List Char) :
    matchTcoPat (SchemeStr ssl ++ (tcoL ++ T)) = matchWordTail T := by
  cases ssl <;> rfl

theorem matchStatusPat_true {host s : List Char} (h : matchStatusPat host s = true) :
    ∃ ssl w s3, s = SchemeStr ssl ++ WwwStr w ++ host ++ s3 ∧ matchHostTail s3 = true := by
  unfold matchStatusPat at h
  cases h1 : afterScheme s with
  | none => rw [h1] at h; exact Bool.noConfusion h
  | some s2 =>
    rw [h1] at h
    replace h : statusTail host s2 = true := h
    obtain ⟨ssl, hs⟩ := afterScheme_eq_some h1
    unfold statusTail at h
    cases h2 : dropLit host (dropOpt wwwL s2) with
    | none => rw [h2] at h; exact Bool.noConfusion h
    | some s3 =>
      rw [h2] at h
      replace h : matchHostTail s3 = true := h
      have hd : dropOpt wwwL s2 = host ++ s3 := (dropLit_eq_some _ _ _).1 h2
      rcases dropOpt_cases wwwL s2 with h3 | h3
      · refine ⟨ssl, true, s3, ?_, h⟩
        rw [hs, h3, hd]
        simp [WwwStr, List.append_assoc]
      · refine ⟨ssl, false, s3, ?_, h⟩
        rw [hs, ← h3, hd]
        simp [WwwStr, List.append_assoc]

theorem matchWordTail_true_iff (s : List Char) :
    matchWordTail s = true ↔ ∃ w0 rest, s = w0 :: rest ∧ isWordChar w0 = true := by
  cases s with
  | nil => simp [matchWordTail]
  | cons c cs =>
    simp only [matchWordTail]
    constructor
    · intro h; exact ⟨c, cs, rfl, h⟩
    · rintro ⟨w0, rest, he, hw⟩
      cases he
      exact hw

theorem matchTcoPat_true {s : List Char} (h : matchTcoPat s = true) :
    ∃ ssl s3, s = SchemeStr ssl ++ tcoL ++ s3 ∧ matchWordTail s3 = true := by
  unfold matchTcoPat at h
  cases h1 : afterScheme s with
  | none => rw [h1] at h; exact Bool.noConfusion h
  | some s2 =>
    rw [h1] at h
    replace h : tcoTail s2 = true := h
    obtain ⟨ssl, hs⟩ := afterScheme_eq_some h1
    unfold tcoTail at h
    cases h2 : dropLit tcoL s2 with
    | none => rw [h2] at h; exact Bool.noConfusion h
    | some s3 =>
      rw [h2] at h
      replace h : matchWordTail s3 = true := h
      have hd : s2 = tcoL ++ s3 := (dropLit_eq_some _ _ _).1 h2
      exact ⟨ssl, s3, by rw [hs, hd, List.append_assoc], h⟩

/-- Claim C8: `is_valid_twitter_url` returns `true` exactly when the string
starts with one of the three documented shapes (twitter.com status URL,
x.com status URL, or t.co shortener form); matching is anchored at the
string start as a prefix match, so any string having a shape as a prefix
is accepted and every other string is rejected. -/
theorem c8_validator_accepts_exactly_prefixed_shapes (s : String) :
    is_valid_twitter_url s = true ↔ SpecAccepted s := by
  simp only [is_valid_twitter_url, Bool.or_eq_true]
  constructor
  · rintro ((h | h) | h)
    · obtain ⟨ssl, w, s3, e, h3⟩ := matchStatusPat_true h
      obtain ⟨user, d, rest, hs3, hne, hword, hdig⟩ := (matchHostTail_true_iff s3).1 h3
      refine ⟨SchemeStr ssl ++ WwwStr w ++ twitterL ++ user ++
        statusL ++ [d], rest, ?_, Or.inl ?_⟩
      · rw [e, hs3]; simp [List.append_assoc]
      · exact ⟨ssl, w, user, [d], by simp [List.append_assoc], hne, hword, by simp,
          by simpa using hdig⟩
    · obtain ⟨ssl, w, s3, e, h3⟩ := matchStatusPat_true h
      obtain ⟨user, d, rest, hs3, hne, hword, hdig⟩ := (matchHostTail_true_iff s3).1 h3
      refine ⟨SchemeStr ssl ++ WwwStr w ++ xL ++ user ++
        statusL ++ [d], rest, ?_, Or.inr (Or.inl ?_)⟩
      · rw [e, hs3]; simp [List.append_assoc]
      · exact ⟨ssl, w, user, [d], by simp [List.append_assoc], hne, hword, by simp,
          by simpa using hdig⟩
    · obtain ⟨ssl, s3, e, h3⟩ := matchTcoPat_true h
      obtain ⟨w0, rest, hs3, hw⟩ := (matchWordTail_true_iff s3).1 h3
      refine ⟨SchemeStr ssl ++ tcoL ++ [w0], rest, ?_, Or.inr (Or.inr ?_)⟩
      · rw [e, hs3]; simp [List.append_assoc]
      · exact ⟨ssl, [w0], by simp [List.append_assoc], by simp, by simpa using hw⟩
  · rintro ⟨p, rest, e, ⟨ssl, w, user, digits, rfl, hne, hword, hdne, hdig⟩ |
      ⟨ssl, w, user, digits, rfl, hne, hword, hdne, hdig⟩ | ⟨ssl, wl, rfl, hwne, hword⟩⟩
    · refine Or.inl (Or.inl ?_)
      rw [e]
      simp only [List.append_assoc]
      rw [matchTwitter_of]
      refine (matchHostTail_true_iff _).2 ?_
      match digits, hdne with
      | d :: ds, _ =>
        exact ⟨user, d, ds ++ rest, by simp [List.append_assoc], hne, hword,
          hdig d (by simp)⟩
    · refine Or.inl (Or.inr ?_)
      rw [e]
      simp only [List.append_assoc]
      rw [matchX_of]
      refine (matchHostTail_true_iff _).2 ?_
      match digits, hdne with
      | d :: ds, _ =>
        exact ⟨user, d, ds ++ rest, by simp [List.append_assoc], hne, hword,
          hdig d (by simp)⟩
    · refine Or.inr ?_
      rw [e]
      simp only [List.append_assoc]
      rw [matchTco_of]
      refine (matchWordTail_true_iff _).2 ?_
      match wl, hwne with
      | w0 :: ws, _ =>
        exact ⟨w0, ws ++ rest, by simp, hword w0 (by simp)⟩

/-! ### Data model of the engine and of the API payloads

A `Format` models one entry of `info['formats']` as returned by the
engine probe; every field models `f.get(key)`, i.e. `none` stands for an
absent key or a stored `None`.  A `MediaInfo` models the probe result
dictionary together with the filename the engine would prepare for it. -/

structure Format where
  format_id : Option String
  ext : Option String
  format_note : Option String
  resolution : Option String
  width : Option Nat
  height : Option Nat
  fps : Option Nat
  filesize : Option Nat
  filesize_approx : Option Nat
  tbr : Option Nat
  vbr : Option Nat
  vcodec : Option String
  url : Option String
deriving DecidableEq

structure MediaInfo where
  title : Option String
  uploader : Option String
  duration : Option Nat
  thumbnail : Option String
  formats : List Format
  preparedFilename : String
deriving DecidableEq

/-- The `quality_info` dictionary built at lines 86-98 of `web_server.py`.
All eleven keys are always present; `height` and `tbr` keep the raw
(possibly `None`) values while the string fields apply `get` defaults. -/
structure QualityInfo where
  format_id : Option String
  ext : String
  quality : String
  resolution : String
  width : Option Nat
  height : Option Nat
  fps : Option Nat
  filesize : Option Nat
  filesize_approx : Option Nat
  tbr : Option Nat
  vbr : Option Nat
deriving DecidableEq

def mkQualityInfo (f : Format) : QualityInfo :=
  { format_id := f.format_id
    ext := f.ext.getD "mp4"
    quality := f.format_note.getD "Unknown"
    resolution := f.resolution.getD "Unknown"
    width := f.width
    height := f.height
    fps := f.fps
    filesize := f.filesize
    filesize_approx := f.filesize_approx
    tbr := f.tbr
    vbr := f.vbr }

/-- The filter of line 85: `f.get('vcodec') != 'none' and f.get('url')`
(a missing `vcodec` passes, and the URL must be present and nonempty). -/
def hasVideoAndUrl (f : Format) : Bool :=
  decide (f.vcodec ≠ some "none") && decide (f.url.getD "" ≠ "")

/-- The filter of line 185 (`download_video_web`): only the vcodec test. -/
def hasVideo (f : Format) : Bool := decide (f.vcodec ≠ some "none")

/-! ### The sort of `get_video_info_web`, lines 108-112

`video_formats.sort(key=lambda x: (x.get('height', 0), x.get('tbr', 0)),
reverse=True)`.  Since the `height` and `tbr` keys are always present in
`quality_info`, the `get` defaults never apply: a variant without a
height or bitrate contributes `None` to its key tuple.  Python tuple
comparison tests equality componentwise (never raising) and falls back
to `<` on the first differing component, which raises `TypeError` when
one side is `None`.  `list.sort` is a stable sort; it is embedded as a
stable descending insertion sort over that fallible comparison. -/

/-- Python `==` on two optional numbers; never raises. -/
def pyEqOpt : Option Nat → Option Nat → Bool
  | none, none => true
  | some a, some b => a == b
  | _, _ => false

/-- Python `<` on two optional numbers; raises `TypeError` on `None`. -/
def pyLtOpt : Option Nat → Option Nat → Except Unit Bool
  | some a, some b => .ok (decide (a < b))
  | _, _ => .error ()

/-- The sort key of line 109: the pair `(height, tbr)` of the stored
(possibly `None`) values. -/
def sortKey (q : QualityInfo) : Option Nat × Option Nat := (q.height, q.tbr)

/-- Python `<` on two key tuples. -/
def pyKeyLt (x y : Option Nat × Option Nat) : Except Unit Bool :=
  if pyEqOpt x.1 y.1 then
    if pyEqOpt x.2 y.2 then .ok false else pyLtOpt x.2 y.2
  else pyLtOpt x.1 y.1

/-- One step of the stable descending sort: the element `x`, earlier in
discovery order, is placed before the first element whose key is not
strictly greater than its own. -/
def insertDesc (x : QualityInfo) : List QualityInfo → Except Unit (List QualityInfo)
  | [] => .ok [x]
  | y :: ys => do
    let b ← pyKeyLt (sortKey x) (sortKey y)
    if b then
      let t ← insertDesc x ys
      pure (y :: t)
    else
      pure (x :: y :: ys)

/-- `video_formats.sort(key=..., reverse=True)` under Python comparison
semantics. -/
def pySortDesc : List QualityInfo → Except Unit (List QualityInfo)
  | [] => .ok []
  | x :: xs => do
    let t ← pySortDesc xs
    insertDesc x t

/-! ### API payloads and error classification -/

/-- The JSON dictionaries returned by the worker functions. -/
inductive ApiResult where
  | infoSuccess (title uploader : String) (duration : Option Nat)
      (thumbnail : Option String) (formats : List QualityInfo)
  | dlSuccess (title uploader : String) (duration : Option Nat)
      (filename filepath quality resolution : String)
  | failure (error : String) (message : Option String)
  | startOk (progressId : String)
deriving DecidableEq

/-- The payload returned when `is_valid_twitter_url` rejects the input. -/
def invalidUrlPayload : ApiResult :=
  .failure "Invalid Twitter URL format" (some "Please provide a valid Twitter/X URL")

/-- A stand-in for the message of the `TypeError` raised by comparing a
`None` sort key against a number. -/
def typeErrorMsg : String := "TypeError: unsupported comparison between NoneType and int"

/-- The `except yt_dlp.DownloadError` classification shared by
`get_video_info_web` and `download_video_web` (lines 123-142 and
218-237).  Note that `"Private" in error_msg` is a case-sensitive test
while the `protected` and `not found` tests lower the message first. -/
def classifyDownloadError (msg : String) : ApiResult :=
  if pyContains msg "Private" || pyContains (pyLower msg) "protected" then
    .failure "Private account" (some "This tweet is from a private account")
  else if pyContains (pyLower msg) "not found" then
    .failure "Tweet not found" (some "Tweet not found - it might have been deleted")
  else
    .failure "Download error" (some msg)

/-- The observable outcome of the engine probe `ydl.extract_info(url,
download=False)`: a `DownloadError`, another exception, or a result that
may be absent. -/
inductive ProbeOutcome where
  | raiseDL (msg : String)
  | raiseOther (msg : String)
  | ok (info : Option MediaInfo)
deriving DecidableEq

/-- A worker-function result together with how many times it invoked the
URL validator and the extraction engine. -/
structure WebCall (α : Type) where
  result : α
  valCalls : Nat
  engCalls : Nat
deriving DecidableEq

/-- `WebTwitterDownloader.get_video_info_web` (lines 59-148). -/
def getVideoInfoWeb (url : String) (probe : ProbeOutcome) : WebCall ApiResult :=
  if is_valid_twitter_url url = false then ⟨invalidUrlPayload, 1, 0⟩
  else
    match probe with
    | .raiseDL msg => ⟨classifyDownloadError msg, 1, 1⟩
    | .raiseOther msg => ⟨.failure "Unexpected error" (some msg), 1, 1⟩
    | .ok none => ⟨.failure "No video found" (some "No video found at this URL"), 1, 1⟩
    | .ok (some info) =>
      let qis := (info.formats.filter hasVideoAndUrl).map mkQualityInfo
      if qis = [] then
        ⟨.failure "No video content" (some "This tweet contains no video content"), 1, 1⟩
      else
        match pySortDesc qis with
        | .error _ => ⟨.failure "Unexpected error" (some typeErrorMsg), 1, 1⟩
        | .ok sorted =>
          ⟨.infoSuccess (info.title.getD "Unknown title") (info.uploader.getD "Unknown")
            info.duration info.thumbnail sorted, 1, 1⟩

/-! ### Substring containment, declaratively (spec side of C6) -/

/-- Declarative substring containment: the needle occurs contiguously in
the hay. -/
def SubStr (needle hay : String) : Prop :=
  ∃ p q, hay.data = p ++ needle.data ++ q

theorem litTest_true_iff : ∀ (n h : List Char), litTest n h = true ↔ ∃ r, h = n ++ r
  | [], h => by simp [litTest]
  | n :: ns, [] => by simp [litTest]
  | n :: ns, c :: cs => by
    simp only [litTest, Bool.and_eq_true, beq_iff_eq, litTest_true_iff ns cs,
      List.cons_append, List.cons.injEq]
    constructor
    · rintro ⟨rfl, r, rfl⟩; exact ⟨r, rfl, rfl⟩
    · rintro ⟨r, rfl, rfl⟩; exact ⟨rfl, r, rfl⟩

theorem hasSub_true_iff (n : List Char) : ∀ h : List Char,
    hasSub n h = true ↔ ∃ p q, h = p ++ n ++ q
  | [] => by
    simp only [hasSub, litTest_true_iff]
    constructor
    · rintro ⟨r, hr⟩
      rcases List.append_eq_nil.1 hr.symm with ⟨rfl, rfl⟩
      exact ⟨[], [], rfl⟩
    · rintro ⟨p, q, hpq⟩
      rcases List.append_eq_nil.1 hpq.symm with ⟨hpn, rfl⟩
      rcases List.append_eq_nil.1 hpn with ⟨rfl, rfl⟩
      exact ⟨[], rfl⟩
  | c :: cs => by
    simp only [hasSub, Bool.or_eq_true, litTest_true_iff, hasSub_true_iff n cs]
    constructor
    · rintro (⟨r, hr⟩ | ⟨p, q, hpq⟩)
      · exact ⟨[], r, by simpa using hr⟩
      · exact ⟨c :: p, q, by simp [hpq]⟩
    · rintro ⟨p, q, hpq⟩
      cases p with
      | nil => exact Or.inl ⟨q, by simpa using hpq⟩
      | cons p0 ps =>
        rcases List.cons.injEq .. ▸ hpq with ⟨rfl, h2⟩
        exact Or.inr ⟨ps, q, by simpa using h2⟩

theorem pyContains_iff (hay needle : String) :
    pyContains hay needle = true ↔ SubStr needle hay :=
  hasSub_true_iff needle.data hay.data

/-- Claim C6 (amended): classification of an engine error message is by
substring containment, but the private/protected branch matches the
case-sensitive substring `Private` or the case-insensitive substring
`protected`; the case-insensitive `not found` branch only applies to
messages not already classified private/protected; every other message
falls to the `Download error` payload (the spec kind `EngineFailure`)
with the original message preserved verbatim. -/
theorem c6_classification_characterization (msg : String) :
    (classifyDownloadError msg =
        .failure "Private account" (some "This tweet is from a private account") ↔
      SubStr "Private" msg ∨ SubStr "protected" (pyLower msg)) ∧
    (classifyDownloadError msg =
        .failure "Tweet not found" (some "Tweet not found - it might have been deleted") ↔
      ¬(SubStr "Private" msg ∨ SubStr "protected" (pyLower msg)) ∧
        SubStr "not found" (pyLower msg)) ∧
    (¬(SubStr "Private" msg ∨ SubStr "protected" (pyLower msg)) →
      ¬SubStr "not found" (pyLower msg) →
      classifyDownloadError msg = .failure "Download error" (some msg)) := by
  have hp : (pyContains msg "Private" || pyContains (pyLower msg) "protected") = true ↔
      SubStr "Private" msg ∨ SubStr "protected" (pyLower msg) := by
    simp [Bool.or_eq_true, pyContains_iff]
  have hn : pyContains (pyLower msg) "not found" = true ↔ SubStr "not found" (pyLower msg) :=
    pyContains_iff ..
  by_cases h1 : (pyContains msg "Private" || pyContains (pyLower msg) "protected") = true
  · simp only [classifyDownloadError, if_pos h1]
    refine ⟨iff_of_true trivial (hp.1 h1), ?_, ?_⟩
    · constructor
      · intro he; exact absurd he (by decide)
      · rintro ⟨hnp, _⟩; exact absurd (hp.1 h1) hnp
    · intro hnp _; exact absurd (hp.1 h1) hnp
  · have h1' : ¬(SubStr "Private" msg ∨ SubStr "protected" (pyLower msg)) :=
      fun hc => h1 (hp.2 hc)
    simp only [classifyDownloadError, if_neg h1]
    by_cases h2 : pyContains (pyLower msg) "not found" = true
    · simp only [if_pos h2]
      refine ⟨?_, iff_of_true trivial ⟨h1', hn.1 h2⟩, ?_⟩
      · constructor
        · intro he; exact absurd he (by decide)
        · intro hc; exact absurd hc h1'
      · intro _ hnn; exact absurd (hn.1 h2) hnn
    · have h2' : ¬SubStr "not found" (pyLower msg) := fun hc => h2 (hn.2 hc)
      simp only [if_neg h2]
      refine ⟨?_, ?_, fun _ _ => by trivial⟩
      · constructor
        · intro he
          injection he with hA hB
          exact absurd hA (by decide)
        · intro hc; exact absurd hc h1'
      · constructor
        · intro he
          injection he with hA hB
          exact absurd hA (by decide)
        · rintro ⟨_, hc⟩; exact absurd hc h2'

/-- Witness for the amended C6 theorem at a message matching no known
substring. -/
theorem c6_classification_characterization_witness :
    classifyDownloadError "boom" = .failure "Download error" (some "boom") :=
  (c6_classification_characterization "boom").2.2
    (fun hc => by
      rcases hc with h | h
      · exact absurd ((pyContains_iff _ _).2 h) (by decide)
      · exact absurd ((pyContains_iff _ _).2 h) (by decide))
    (fun hc => absurd ((pyContains_iff _ _).2 hc) (by decide))

/-- Claim C6 counterexample: the message `The tweet is private` contains
the substring `private` (case-insensitively), yet the source classifies
it as the generic `Download error` payload, not as the private-account
one, because the source test `"Private" in error_msg` is case-sensitive. -/
theorem c6_counterexample_lowercase_private :
    pyContains (pyLower "The tweet is private") "private" = true ∧
    classifyDownloadError "The tweet is private" =
      .failure "Download error" (some "The tweet is private") :=
  ⟨by decide, by decide⟩

/-! ### Pure ranking (C4): the stable descending sort on total keys -/

/-- The sort key with the `None`-free reading: missing values as zero,
ordered lexicographically. -/
def pureKey (q : QualityInfo) : Lex (Nat × Nat) := toLex (q.height.getD 0, q.tbr.getD 0)

/-- Descending key order: `x` ranks at least as high as `y`. -/
def keyGe (x y : QualityInfo) : Prop := pureKey y ≤ pureKey x

instance : DecidableRel keyGe := fun x y =>
  (inferInstance : Decidable (pureKey y ≤ pureKey x))

instance : IsTotal QualityInfo keyGe :=
  ⟨fun x y => le_total (pureKey y) (pureKey x)⟩

instance : IsTrans QualityInfo keyGe :=
  ⟨fun _ _ _ h1 h2 => le_trans h2 h1⟩

/-- `FormatCatalog.Rank` on totally-keyed variants: the stable descending
insertion sort. -/
def rankDesc (l : List QualityInfo) : List QualityInfo := List.insertionSort keyGe l

theorem pyKeyLt_of_some {x y : QualityInfo}
    (hx1 : x.height.isSome) (hx2 : x.tbr.isSome)
    (hy1 : y.height.isSome) (hy2 : y.tbr.isSome) :
    pyKeyLt (sortKey x) (sortKey y) = .ok (decide (pureKey x < pureKey y)) := by
  obtain ⟨a, ha⟩ := Option.isSome_iff_exists.1 hx1
  obtain ⟨b, hb⟩ := Option.isSome_iff_exists.1 hx2
  obtain ⟨c, hc⟩ := Option.isSome_iff_exists.1 hy1
  obtain ⟨d, hd⟩ := Option.isSome_iff_exists.1 hy2
  simp only [pyKeyLt, sortKey, ha, hb, hc, hd, pyEqOpt, pyLtOpt, pureKey,
    Option.getD_some]
  by_cases hac : a = c
  · subst hac
    by_cases hbd : b = d
    · subst hbd
      simp [Prod.Lex.lt_iff]
    · simp only [beq_self_eq_true, if_true, beq_iff_eq, hbd, if_neg, if_false]
      congr 1
      simp [Prod.Lex.lt_iff]
  · simp only [beq_iff_eq, hac, if_false]
    congr 1
    simp [Prod.Lex.lt_iff, hac]

theorem except_bind_ok {α β : Type} (a : α) (f : α → Except Unit β) :
    ((Except.ok a : Except Unit α) >>= f) = f a := rfl

theorem insertDesc_of_some {x : QualityInfo} {l : List QualityInfo}
    (hx1 : x.height.isSome) (hx2 : x.tbr.isSome)
    (hl : ∀ v ∈ l, v.height.isSome ∧ v.tbr.isSome) :
    insertDesc x l = .ok (List.orderedInsert keyGe x l) := by
  induction l with
  | nil => rfl
  | cons y ys ih =>
    have hy := hl y (by simp)
    have hys : ∀ v ∈ ys, v.height.isSome ∧ v.tbr.isSome :=
      fun v hv => hl v (by simp [hv])
    simp only [insertDesc, pyKeyLt_of_some hx1 hx2 hy.1 hy.2]
    by_cases hlt : pureKey x < pureKey y
    · have hge : ¬keyGe x y := not_le.2 hlt
      simp [decide_eq_true hlt, except_bind_ok, ih hys, List.orderedInsert, hge,
        pure, Except.pure]
    · have hge : keyGe x y := not_lt.1 hlt
      simp [decide_eq_false hlt, except_bind_ok, List.orderedInsert, hge,
        pure, Except.pure]

theorem pySortDesc_of_some {l : List QualityInfo}
    (hl : ∀ v ∈ l, v.height.isSome ∧ v.tbr.isSome) :
    pySortDesc l = .ok (rankDesc l) := by
  induction l with
  | nil => rfl
  | cons x xs ih =>
    have hx := hl x (by simp)
    have hxs : ∀ v ∈ xs, v.height.isSome ∧ v.tbr.isSome :=
      fun v hv => hl v (by simp [hv])
    have hsort : ∀ v ∈ rankDesc xs, v.height.isSome ∧ v.tbr.isSome :=
      fun v hv => hxs v ((List.mem_insertionSort keyGe).1 hv)
    simp only [pySortDesc, ih hxs, except_bind_ok]
    rw [insertDesc_of_some hx.1 hx.2 hsort]
    rfl

theorem filter_orderedInsert_key (k : Lex (Nat × Nat)) (x : QualityInfo) :
    ∀ l : List QualityInfo,
      (List.orderedInsert keyGe x l).filter (fun v => decide (pureKey v = k)) =
        if pureKey x = k then x :: l.filter (fun v => decide (pureKey v = k))
        else l.filter (fun v => decide (pureKey v = k))
  | [] => by
    by_cases hx : pureKey x = k <;> simp [List.orderedInsert, List.filter, hx]
  | y :: ys => by
    by_cases hxy : keyGe x y
    · by_cases hx : pureKey x = k <;>
        simp [List.orderedInsert, hxy, List.filter_cons, hx]
    · have hlt : pureKey x < pureKey y := not_le.1 hxy
      by_cases hx : pureKey x = k
      · have hy : ¬(pureKey y = k) := by
          intro hy
          rw [hx] at hlt
          rw [hy] at hlt
          exact lt_irrefl k hlt
        simp [List.orderedInsert, hxy, List.filter_cons, hx, hy,
          filter_orderedInsert_key k x ys]
      · simp [List.orderedInsert, hxy, List.filter_cons, hx,
          filter_orderedInsert_key k x ys]

theorem filter_rankDesc_key (k : Lex (Nat × Nat)) :
    ∀ l : List QualityInfo,
      (rankDesc l).filter (fun v => decide (pureKey v = k)) =
        l.filter (fun v => decide (pureKey v = k))
  | [] => rfl
  | x :: xs => by
    show (List.orderedInsert keyGe x (rankDesc xs)).filter _ = _
    rw [filter_orderedInsert_key, filter_rankDesc_key k xs, List.filter_cons]
    by_cases hx : pureKey x = k <;> simp [hx]

/-- Claim C4 (amended): when every filtered variant carries both a height
and a total bitrate, the sort succeeds and produces the stable descending
ranking: a permutation of the input, sorted primarily by descending
height and secondarily by descending bitrate, in which variants with
equal keys keep their input order, and whose head (the variant chosen
as best, `formats[0]`) has a maximal key.  When a compared variant is
missing one of the key values the comparison raises instead (see the
counterexample): a missing value does not sort as zero. -/
theorem c4_rank_stable_sorted (l : List QualityInfo)
    (h : ∀ v ∈ l, v.height.isSome ∧ v.tbr.isSome) :
    pySortDesc l = .ok (rankDesc l) ∧
    (rankDesc l).Perm l ∧
    List.Sorted keyGe (rankDesc l) ∧
    (∀ k, (rankDesc l).filter (fun v => decide (pureKey v = k)) =
      l.filter (fun v => decide (pureKey v = k))) ∧
    ∀ b, (rankDesc l).head? = some b → ∀ u ∈ l, pureKey u ≤ pureKey b := by
  refine ⟨pySortDesc_of_some h, List.perm_insertionSort keyGe l,
    List.sorted_insertionSort keyGe l, fun k => filter_rankDesc_key k l, ?_⟩
  intro b hb u hu
  have hmem : u ∈ rankDesc l := (List.mem_insertionSort keyGe).2 hu
  have hsorted : List.Sorted keyGe (rankDesc l) := List.sorted_insertionSort keyGe l
  cases hrk : rankDesc l with
  | nil => rw [hrk] at hb; cases hb
  | cons b0 t =>
    rw [hrk] at hb hmem hsorted
    have hb0 : b0 = b := by simpa using hb
    subst hb0
    rcases List.mem_cons.1 hmem with rfl | hmem
    · exact le_refl _
    · exact List.rel_of_sorted_cons hsorted u hmem

/-! ### Concrete fixtures used by counterexamples and witnesses -/

def f720 : Format :=
  { format_id := some "f720", ext := some "mp4", format_note := some "720p",
    resolution := some "720x1280", width := some 1280, height := some 720,
    fps := some 30, filesize := some 1000000, filesize_approx := none,
    tbr := some 2000, vbr := some 1800, vcodec := some "avc1",
    url := some "https://video.example/720" }

def fNoHeight : Format :=
  { format_id := some "fNoH", ext := some "mp4", format_note := none,
    resolution := none, width := none, height := none,
    fps := none, filesize := none, filesize_approx := none,
    tbr := none, vbr := none, vcodec := some "avc1",
    url := some "https://video.example/noh" }

def infoMixed : MediaInfo :=
  { title := some "clip", uploader := some "up", duration := some 10,
    thumbnail := none, formats := [fNoHeight, f720],
    preparedFilename := "downloads/up_clip_1.mp4" }

def infoSingle : MediaInfo :=
  { title := some "clip", uploader := some "up", duration := some 10,
    thumbnail := none, formats := [f720],
    preparedFilename := "downloads/up_clip_1.mp4" }

def q720q : QualityInfo := mkQualityInfo f720

def q480a : QualityInfo :=
  ⟨some "f480a", "mp4", "480p", "480x854", some 854, some 480, none, none, none,
    some 1000, none⟩

def q480b : QualityInfo :=
  ⟨some "f480b", "mp4", "480p", "480x854", some 854, some 480, none, none, none,
    some 1000, none⟩

/-- Claim C4 counterexample: in the source, the `height` key of a
`quality_info` dictionary always exists and holds `None` when the engine
reported no height, so the sort key `x.get('height', 0)` yields `None`,
not `0`; comparing it against a number raises `TypeError` and the
metadata request fails with `Unexpected error` instead of ranking the
height-less variant lowest. -/
theorem c4_counterexample_missing_height_raises :
    pySortDesc [mkQualityInfo fNoHeight, mkQualityInfo f720] = .error () ∧
    (getVideoInfoWeb "https://x.com/a/status/1" (.ok (some infoMixed))).result =
      .failure "Unexpected error" (some typeErrorMsg) :=
  ⟨rfl, rfl⟩

/-- Witness for the amended C4 theorem at a three-variant list containing
a tie between the two 480p variants. -/
theorem c4_rank_stable_sorted_witness :
    pySortDesc [q480a, q720q, q480b] = .ok (rankDesc [q480a, q720q, q480b]) :=
  (c4_rank_stable_sorted [q480a, q720q, q480b] (by decide)).1

/-! ### The streaming path, `stream_download` (lines 370-449) -/

/-- Characters replaced in `re.sub(r'[<>:"/\\|?*]', '_', title)`. -/
def isIllegalFilenameChar (c : Char) : Bool :=
  c = '<' || c = '>' || c = ':' || c = '"' || c = '/' || c = '\\' ||
    c = '|' || c = '?' || c = '*'

def sanitizeChar (c : Char) : Char := if isIllegalFilenameChar c then '_' else c

/-- `clean_title` at line 408: `info_result['title'] or 'twitter_video'`,
sanitized and truncated to 100 characters. -/
def cleanTitle (title : String) : String :=
  ⟨((if title = "" then "twitter_video" else title).data.map sanitizeChar).take 100⟩

/-- The attachment filename of line 409. -/
def streamFilename (title : String) (q : QualityInfo) : String :=
  cleanTitle title ++ "_" ++ q.resolution ++ "." ++ q.ext

/-- The format selection of lines 395-404: look the requested id up in the
ranked list (a falsy id is skipped), and fall back to the ranked head when
the lookup found nothing. -/
def streamSelect (formats : List QualityInfo) (fmtId : Option String) : Option QualityInfo :=
  let found : Option QualityInfo := match fmtId with
    | some fid =>
      if fid = "" then none else formats.find? (fun f => f.format_id == some fid)
    | none => none
  match found with
  | some f => some f
  | none => formats.head?

/-- The observable response of `stream_download`: a JSON payload or a
streamed attachment (carrying the derived filename and the format id
handed to the fetch subprocess). -/
inductive StreamResult where
  | json (r : ApiResult)
  | stream (filename : String) (formatId : Option String)
deriving DecidableEq

/-- `stream_download` after the required-URL check (lines 380-449).  The
engine calls counted are the probe inside `get_video_info_web` and the
`yt-dlp` fetch subprocess of the streamed response. -/
def streamAfterInfo (info : WebCall ApiResult) (fmtId : Option String) :
    WebCall StreamResult :=
  match info.result with
  | .infoSuccess title _ _ _ formats =>
    match streamSelect formats fmtId with
    | some q => ⟨.stream (streamFilename title q) q.format_id,
        1 + info.valCalls, info.engCalls + 1⟩
    | none => ⟨.json (.failure "Download error" (some "list index out of range")),
        1 + info.valCalls, info.engCalls⟩
  | r => ⟨.json r, 1 + info.valCalls, info.engCalls⟩

def streamCore (url : String) (fmtId : Option String) (probe : ProbeOutcome) :
    WebCall StreamResult :=
  if is_valid_twitter_url url = false then ⟨.json invalidUrlPayload, 1, 0⟩
  else streamAfterInfo (getVideoInfoWeb url probe) fmtId

/-- The `/stream_download` endpoint (lines 370-378 plus `streamCore`). -/
def streamEndpoint (urlField : Option String) (fmtId : Option String)
    (probe : ProbeOutcome) : WebCall StreamResult :=
  let url := pyStrip (urlField.getD "")
  if url = "" then ⟨.json (.failure "URL is required" none), 0, 0⟩
  else streamCore url fmtId probe

/-- The `/video_info` endpoint (lines 250-262). -/
def videoInfoEndpoint (urlField : Option String) (probe : ProbeOutcome) :
    WebCall ApiResult :=
  let url := pyStrip (urlField.getD "")
  if url = "" then ⟨.failure "URL is required" none, 0, 0⟩
  else getVideoInfoWeb url probe

/-! ### The job path: progress state, the worker thread and the endpoints -/

/-- The status strings stored in `download_progress` (plus the
query-time-only `unknown`). -/
inductive JobStatus where
  | starting
  | extracting
  | downloading
  | finished
  | completed
  | error
  | unknown
deriving DecidableEq

/-- One `download_progress` dictionary value.  The optional fields model
keys that only some writers set; `result` models the key added by
`get_progress` when it mutates a stored entry. -/
structure ProgressEntry where
  status : JobStatus
  percent : String
  message : Option String
  speed : Option String
  eta : Option String
  filename : Option String
  result : Option ApiResult
deriving DecidableEq

def startingEntry : ProgressEntry :=
  ⟨.starting, "0%", some "Initializing download...", none, none, none, none⟩

def extractingEntry : ProgressEntry :=
  ⟨.extracting, "0%", some "Extracting video information...", none, none, none, none⟩

def downloadingEntry (p s e f : String) : ProgressEntry :=
  ⟨.downloading, p, none, some s, some e, some f, none⟩

def finishedEntry (f : String) : ProgressEntry :=
  ⟨.finished, "100%", none, none, none, some f, none⟩

def completedEntry : ProgressEntry :=
  ⟨.completed, "100%", some "Download completed successfully!", none, none, none, none⟩

def errorEntry (m : String) : ProgressEntry :=
  ⟨.error, "0%", some m, none, none, none, none⟩

def unknownEntry : ProgressEntry :=
  ⟨.unknown, "0%", some "Unknown progress ID", none, none, none, none⟩

/-- The two global dictionaries `download_progress` and `download_results`. -/
structure ServerState where
  progress : String → Option ProgressEntry
  results : String → Option ApiResult

/-- Pointwise update of a string-keyed map. -/
def upd {α : Type} (f : String → Option α) (k : String) (v : Option α) :
    String → Option α :=
  fun k2 => if k2 = k then v else f k2

def setProgress (id : String) (e : ProgressEntry) (σ : ServerState) : ServerState :=
  { σ with progress := upd σ.progress id (some e) }

def setResult (id : String) (r : ApiResult) (σ : ServerState) : ServerState :=
  { σ with results := upd σ.results id (some r) }

/-- The empty server state. -/
def emptyState : ServerState := ⟨fun _ => none, fun _ => none⟩

/-- One event delivered to `_progress_hook` during a fetch (the source
ignores every other hook status). -/
inductive HookEvent where
  | downloading (percent speed eta filename : String)
  | finished (filename : String)
deriving DecidableEq

def hookEntry : HookEvent → ProgressEntry
  | .downloading p s e f => downloadingEntry p s e f
  | .finished f => finishedEntry f

/-- `_progress_hook` (lines 35-57) with a truthy `progress_id`. -/
def hookStep (id : String) (ev : HookEvent) : ServerState → ServerState :=
  fun σ => setProgress id (hookEntry ev) σ

/-- The fetch outcome of `ydl.download([url])`. -/
inductive FetchOutcome where
  | ok
  | raiseDL (msg : String)
  | raiseOther (msg : String)
deriving DecidableEq

/-- One engine behaviour for one job: the probe outcome, the hook events
fired during the fetch, and the fetch outcome. -/
structure EngineRun where
  probe : ProbeOutcome
  hooks : List HookEvent
  fetch : FetchOutcome
deriving DecidableEq

/-- Python `os.path.basename` (keep everything after the last slash). -/
def pyBasename (s : String) : String :=
  ⟨s.data.foldl (fun acc c => if c = '/' then [] else acc ++ [c]) []⟩

/-- Lines 200-203 and 212-215: the `format_info` fields derived from the
optional `selected_format` lookup over the raw format list. -/
def selectedFormatInfo (info : MediaInfo) (fmtId : Option String) : String × String :=
  let sel : Option Format := match fmtId with
    | some fid =>
      if fid = "" then none else info.formats.find? (fun f => f.format_id == some fid)
    | none => none
  match sel with
  | some f => (f.format_note.getD "Auto", f.resolution.getD "Unknown")
  | none => ("Auto", "Best available")

/-- The outcome of `download_video_web` run by the worker thread: the
progress-state updates it performs, its returned dictionary, and its
validator/engine call counts. -/
structure WebRun where
  steps : List (ServerState → ServerState)
  result : ApiResult
  valCalls : Nat
  engCalls : Nat

/-- `WebTwitterDownloader.download_video_web` (lines 150-243) as run with
progress id `id`. -/
def downloadVideoWeb (id url : String) (fmtId : Option String) (eng : EngineRun) :
    WebRun :=
  if is_valid_twitter_url url = false then
    ⟨[], invalidUrlPayload, 1, 0⟩
  else
    let pre : List (ServerState → ServerState) := [setProgress id extractingEntry]
    match eng.probe with
    | .raiseDL msg => ⟨pre, classifyDownloadError msg, 1, 1⟩
    | .raiseOther msg => ⟨pre, .failure "Unexpected error" (some msg), 1, 1⟩
    | .ok none => ⟨pre, .failure "No video found" (some "No video found at this URL"), 1, 1⟩
    | .ok (some info) =>
      if info.formats.filter hasVideo = [] then
        ⟨pre, .failure "No video content" (some "This tweet contains no video content"), 1, 1⟩
      else
        let hookSteps := eng.hooks.map (hookStep id)
        match eng.fetch with
        | .raiseDL msg => ⟨pre ++ hookSteps, classifyDownloadError msg, 1, 2⟩
        | .raiseOther msg => ⟨pre ++ hookSteps, .failure "Unexpected error" (some msg), 1, 2⟩
        | .ok =>
          let fi := selectedFormatInfo info fmtId
          ⟨pre ++ hookSteps,
            .dlSuccess (info.title.getD "Unknown title") (info.uploader.getD "Unknown")
              info.duration (pyBasename info.preparedFilename) info.preparedFilename
              fi.1 fi.2, 1, 2⟩

/-- `if result['success']` of line 291. -/
def isSuccessResult : ApiResult → Bool
  | .failure .. => false
  | _ => true

/-- `result.get('message', 'Download failed')` of line 301. -/
def failureMessage : ApiResult → String
  | .failure _ m => m.getD "Download failed"
  | _ => "Download failed"

/-- Line 289: `download_results[progress_id] = result`. -/
def resultStep (id : String) (r : ApiResult) : ServerState → ServerState :=
  setResult id r

/-- Lines 291-302: the terminal progress write of the worker thread. -/
def terminalStep (id : String) (r : ApiResult) : ServerState → ServerState :=
  fun σ =>
    setProgress id (if isSuccessResult r then completedEntry else errorEntry (failureMessage r)) σ

/-- The state updates performed by `download_thread` (lines 285-302), in
program order: the worker-body updates, then the result write, then the
terminal progress write. -/
def threadSteps (id : String) (w : WebRun) : List (ServerState → ServerState) :=
  w.steps ++ [resultStep id w.result, terminalStep id w.result]

/-- Line 276: `progress_id = f"download_{int(time.time())}"`. -/
def mkProgressId (t : Nat) : String := "download_" ++ toString t

/-- The observable outcome of one POST to `/download`: the HTTP response,
the server state after the synchronous part of the handler, and the
spawned worker thread (its progress id, url and requested format), if
any. -/
structure DownloadEndpointOut where
  response : ApiResult
  state : ServerState
  thread : Option (String × String × Option String)

/-- The `/download` endpoint handler (lines 264-313), with `t` the value
of `int(time.time())` at the moment of the request. -/
def downloadEndpoint (urlField : Option String) (fmtId : Option String) (t : Nat)
    (σ : ServerState) : DownloadEndpointOut :=
  let url := pyStrip (urlField.getD "")
  if url = "" then ⟨.failure "URL is required" none, σ, none⟩
  else
    let pid := mkProgressId t
    ⟨.startOk pid, setProgress pid startingEntry σ, some (pid, url, fmtId)⟩

/-- Run a list of state updates, collecting every intermediate state
(the states a concurrent poller can observe). -/
def applySteps : ServerState → List (ServerState → ServerState) → List ServerState
  | σ, [] => [σ]
  | σ, f :: fs => σ :: applySteps (f σ) fs

/-- All states of one job's lifetime, from the moment the handler
registers the job in `starting` state through the worker thread's last
write. -/
def jobTrace (σ : ServerState) (id url : String) (fmtId : Option String)
    (eng : EngineRun) : List ServerState :=
  applySteps (setProgress id startingEntry σ)
    (threadSteps id (downloadVideoWeb id url fmtId eng))

/-- The status a `GET /progress/{id}` poll reports in a given state. -/
def statusAt (id : String) (σ : ServerState) : JobStatus :=
  match σ.progress id with
  | some e => e.status
  | none => .unknown

/-- `get_progress` (lines 315-328): the returned entry and the state after
the query.  `download_progress.get` returns the stored dictionary itself,
so `progress['result'] = result` mutates the stored entry whenever the id
is present in both maps. -/
def getProgress (σ : ServerState) (pid : String) : ProgressEntry × ServerState :=
  let p := (σ.progress pid).getD unknownEntry
  match σ.results pid with
  | some r =>
    let p2 := { p with result := some r }
    (p2, if (σ.progress pid).isSome
      then { σ with progress := upd σ.progress pid (some p2) }
      else σ)
  | none => (p, σ)

/-! ### Claim C1: job identifiers -/

/-- Claim C1 evaluation at the failing input: two POST `/download`
requests arriving within the same clock second (`int(time.time()) =
1700000000` for both) receive the same job identifier, because the
identifier is a pure function of the integer second; the second call is
shown running on the state produced by the first, so the identifier is
also reused across jobs. -/
theorem c1_same_tick_requests_share_id :
    (downloadEndpoint (some "https://x.com/a/status/1") none 1700000000
      emptyState).response = .startOk "download_1700000000" ∧
    (downloadEndpoint (some "https://x.com/b/status/2") none 1700000000
      (downloadEndpoint (some "https://x.com/a/status/1") none 1700000000
        emptyState).state).response = .startOk "download_1700000000" :=
  ⟨rfl, rfl⟩

/-! ### Claim C5: requested-format lookup -/

/-- Claim C5 counterexample: a streaming request whose `format_id` is
absent from the descriptor's variant set does not fail with a
format-not-found error; the source silently falls back to `formats[0]`
and streams the best-ranked variant. -/
theorem c5_counterexample_absent_format_falls_back :
    (streamEndpoint (some "https://x.com/a/status/1") (some "no-such-format")
      (.ok (some infoSingle))).result = .stream "clip_720x1280.mp4" (some "f720") :=
  rfl

/-- Claim C5 (amended): the streaming path looks the requested id up in
the filtered, ranked variant list and, when it is absent (or falsy),
falls back to the head of the ranking instead of failing; the download
path hands the id to the engine, whose failure message is classified by
the generic message heuristic (e.g. the engine's `Requested format is
not available` becomes the `Download error` payload, the spec kind
`EngineFailure`, not a `FormatNotFound`). -/
theorem c5_absent_format_streams_ranked_head (url fid : String) (probe : ProbeOutcome)
    (title uploader : String) (dur : Option Nat) (thumb : Option String)
    (m : List QualityInfo) (b : QualityInfo)
    (hinfo : (getVideoInfoWeb url probe).result = .infoSuccess title uploader dur thumb m)
    (hfid : fid ≠ "" → m.find? (fun f => f.format_id == some fid) = none)
    (hhead : m.head? = some b) :
    (streamCore url (some fid) probe).result =
      .stream (streamFilename title b) b.format_id ∧
    classifyDownloadError "Requested format is not available" =
      .failure "Download error" (some "Requested format is not available") := by
  have hv : is_valid_twitter_url url = true := by
    by_contra hv
    have hv2 : is_valid_twitter_url url = false := by
      cases h2 : is_valid_twitter_url url
      · rfl
      · exact absurd h2 hv
    rw [getVideoInfoWeb.eq_def, if_pos hv2] at hinfo
    exact ApiResult.noConfusion hinfo
  have hsel : streamSelect m (some fid) = some b := by
    unfold streamSelect
    by_cases hempty : fid = ""
    · simp [hempty, hhead]
    · simp [hempty, hfid hempty, hhead]
  have hv2 : ¬(is_valid_twitter_url url = false) := by simp [hv]
  refine ⟨?_, by decide⟩
  unfold streamCore
  rw [if_neg hv2]
  unfold streamAfterInfo
  rw [hinfo]
  dsimp only
  rw [hsel]

/-- Witness for the amended C5 theorem at a concrete absent format id. -/
theorem c5_absent_format_streams_ranked_head_witness :
    (streamCore "https://x.com/a/status/1" (some "nope") (.ok (some infoSingle))).result =
      .stream (streamFilename "clip" q720q) q720q.format_id :=
  (c5_absent_format_streams_ranked_head "https://x.com/a/status/1" "nope"
    (.ok (some infoSingle)) "clip" "up" (some 10) none [q720q] q720q
    rfl (fun _ => by decide) rfl).1

/-! ### Claim C7: rejected URLs fail locally -/

theorem statusAt_setProgress (id : String) (e : ProgressEntry) (σ : ServerState) :
    statusAt id (setProgress id e σ) = e.status := by
  simp [statusAt, setProgress, upd]

theorem statusAt_setResult (id id2 : String) (r : ApiResult) (σ : ServerState) :
    statusAt id (setResult id2 r σ) = statusAt id σ := rfl

/-- Claim C7: every entry point that accepts a raw URL rejects a
validator-refused (nonempty) input with the InvalidURL payload and never
invokes the extraction engine: the metadata and streaming endpoints
return the payload with zero engine calls, and a download job's worker
returns the payload with zero engine calls, ending the job trace as
`starting, starting, error`. -/
theorem c7_invalid_url_fails_without_engine (u : String) (fmtId : Option String)
    (probe : ProbeOutcome) (eng : EngineRun) (id : String)
    (hne : pyStrip u ≠ "")
    (hv : is_valid_twitter_url (pyStrip u) = false) :
    videoInfoEndpoint (some u) probe = ⟨invalidUrlPayload, 1, 0⟩ ∧
    streamEndpoint (some u) fmtId probe = ⟨.json invalidUrlPayload, 1, 0⟩ ∧
    downloadVideoWeb id (pyStrip u) fmtId eng = ⟨[], invalidUrlPayload, 1, 0⟩ ∧
    ∀ σ, (jobTrace σ id (pyStrip u) fmtId eng).map (statusAt id) =
      [.starting, .starting, .error] := by
  refine ⟨?_, ?_, ?_, ?_⟩
  · simp [videoInfoEndpoint, getVideoInfoWeb, hne, hv]
  · simp [streamEndpoint, streamCore, hne, hv]
  · simp [downloadVideoWeb, hv]
  · intro σ
    simp only [jobTrace, threadSteps, downloadVideoWeb, if_pos hv, List.nil_append,
      applySteps, List.map_cons, List.map_nil, resultStep, terminalStep,
      statusAt_setResult, statusAt_setProgress]
    rfl

/-- Witness for C7 at the concrete rejected input `notaurl`. -/
theorem c7_invalid_url_fails_without_engine_witness :
    videoInfoEndpoint (some "notaurl") (.ok none) = ⟨invalidUrlPayload, 1, 0⟩ :=
  (c7_invalid_url_fails_without_engine "notaurl" none (.ok none)
    ⟨.ok none, [], .ok⟩ "download_1" (by decide) (by decide)).1

/-! ### Claim C10: missing or blank URL -/

/-- Claim C10: a POST body with no url field, or whose url strips to the
empty string, is answered with the `URL is required` payload by all three
endpoints, with no validator or engine call, no state change, and no
worker thread. -/
theorem c10_blank_url_rejected_without_side_effects
    (urlField : Option String) (fmtId : Option String) (probe : ProbeOutcome)
    (t : Nat) (σ : ServerState)
    (h : urlField = none ∨ pyStrip (urlField.getD "") = "") :
    videoInfoEndpoint urlField probe = ⟨.failure "URL is required" none, 0, 0⟩ ∧
    streamEndpoint urlField fmtId probe = ⟨.json (.failure "URL is required" none), 0, 0⟩ ∧
    downloadEndpoint urlField fmtId t σ = ⟨.failure "URL is required" none, σ, none⟩ := by
  have hu : pyStrip (urlField.getD "") = "" := by
    rcases h with rfl | h
    · rfl
    · exact h
  refine ⟨?_, ?_, ?_⟩ <;> simp [videoInfoEndpoint, streamEndpoint, downloadEndpoint, hu]

/-- Witness for C10 at a body with no url field. -/
theorem c10_blank_url_rejected_without_side_effects_witness :
    videoInfoEndpoint none (.ok none) = ⟨.failure "URL is required" none, 0, 0⟩ :=
  (c10_blank_url_rejected_without_side_effects none none (.ok none) 0 emptyState
    (Or.inl rfl)).1

/-! ### Claim C9: the progress query is not effect-free -/

def stateWithResult : ServerState :=
  ⟨upd (fun _ => none) "j" (some completedEntry),
   upd (fun _ => none) "j" (some (ApiResult.failure "Download error" (some "m")))⟩

/-- Claim C9 counterexample: `get_progress` mutates the stored job
record.  In a state holding a completed progress entry and a result for
id `j`, the query adds a `result` field to the entry stored in
`download_progress` (the returned dictionary is the stored one, not a
copy). -/
theorem c9_counterexample_get_mutates_store :
    (getProgress stateWithResult "j").2.progress "j" ≠ stateWithResult.progress "j" ∧
    (getProgress stateWithResult "j").2.progress "j" =
      some { completedEntry with
        result := some (ApiResult.failure "Download error" (some "m")) } :=
  ⟨by decide, by decide⟩

/-- Claim C9 (amended): `get_progress` returns the stored record itself
with the result attached when one exists; when the id has both a
progress entry and a result the query writes the result-bearing entry
back into the store, and only when no result exists, or no progress
entry exists, is the state left unchanged. -/
theorem c9_get_progress_characterization (σ : ServerState) (pid : String) :
    (σ.results pid = none →
      getProgress σ pid = ((σ.progress pid).getD unknownEntry, σ)) ∧
    (σ.progress pid = none → (getProgress σ pid).2 = σ) ∧
    (∀ e r, σ.progress pid = some e → σ.results pid = some r →
      getProgress σ pid =
        ({ e with result := some r },
          { σ with progress := upd σ.progress pid (some { e with result := some r }) })) := by
  refine ⟨?_, ?_, ?_⟩
  · intro h; simp [getProgress, h]
  · intro h
    cases hr : σ.results pid with
    | none => simp [getProgress, hr]
    | some r => simp [getProgress, hr, h]
  · intro e r he hr
    simp [getProgress, he, hr]

/-- Witness for the amended C9 theorem at the concrete mutated state. -/
theorem c9_get_progress_characterization_witness :
    getProgress stateWithResult "j" =
      ({ completedEntry with
          result := some (ApiResult.failure "Download error" (some "m")) },
        { stateWithResult with
          progress := upd stateWithResult.progress "j"
            (some { completedEntry with
              result := some (ApiResult.failure "Download error" (some "m")) }) }) :=
  (c9_get_progress_characterization stateWithResult "j").2.2 completedEntry
    (ApiResult.failure "Download error" (some "m")) (by decide) (by decide)

/-! ### Claims C2 and C3: the observable job lifecycle -/

/-- A state update that leaves `download_results` untouched. -/
def PreservesResults (f : ServerState → ServerState) : Prop :=
  ∀ σ, (f σ).results = σ.results

/-- A state update after which the job status is not terminal. -/
def WritesNonTerminal (id : String) (f : ServerState → ServerState) : Prop :=
  ∀ σ, statusAt id (f σ) ≠ .completed ∧ statusAt id (f σ) ≠ .error

theorem hookStep_nonterminal (id : String) (ev : HookEvent) :
    WritesNonTerminal id (hookStep id ev) := by
  intro σ
  refine ⟨?_, ?_⟩ <;> cases ev <;>
    simp [hookStep, statusAt_setProgress, hookEntry, downloadingEntry, finishedEntry]

theorem downloadVideoWeb_steps_cases (id url : String) (fmtId : Option String)
    (eng : EngineRun) :
    (downloadVideoWeb id url fmtId eng).steps = [] ∨
    (downloadVideoWeb id url fmtId eng).steps = [setProgress id extractingEntry] ∨
    (downloadVideoWeb id url fmtId eng).steps =
      setProgress id extractingEntry :: eng.hooks.map (hookStep id) := by
  obtain ⟨probe, hooks, fetch⟩ := eng
  unfold downloadVideoWeb
  by_cases hv : is_valid_twitter_url url = false
  · rw [if_pos hv]; exact Or.inl rfl
  · rw [if_neg hv]
    dsimp only
    cases probe with
    | raiseDL msg => exact Or.inr (Or.inl rfl)
    | raiseOther msg => exact Or.inr (Or.inl rfl)
    | ok oinfo =>
      cases oinfo with
      | none => exact Or.inr (Or.inl rfl)
      | some info =>
        dsimp only
        by_cases hfmt : info.formats.filter hasVideo = []
        · rw [if_pos hfmt]; exact Or.inr (Or.inl rfl)
        · rw [if_neg hfmt]
          cases fetch <;> exact Or.inr (Or.inr rfl)

theorem downloadVideoWeb_steps_ok (id url : String) (fmtId : Option String)
    (eng : EngineRun) :
    ∀ f ∈ (downloadVideoWeb id url fmtId eng).steps,
      PreservesResults f ∧ WritesNonTerminal id f := by
  intro f hf
  rcases downloadVideoWeb_steps_cases id url fmtId eng with h | h | h <;> rw [h] at hf
  · exact absurd hf (by simp)
  · have hfe : f = setProgress id extractingEntry := by simpa using hf
    subst hfe
    refine ⟨fun _ => rfl, fun σ => ?_⟩
    refine ⟨?_, ?_⟩ <;> simp [statusAt_setProgress, extractingEntry]
  · rcases List.mem_cons.1 hf with rfl | hf2
    · refine ⟨fun _ => rfl, fun σ => ?_⟩
      refine ⟨?_, ?_⟩ <;> simp [statusAt_setProgress, extractingEntry]
    · obtain ⟨ev, _, rfl⟩ := List.mem_map.1 hf2
      exact ⟨fun _ => rfl, hookStep_nonterminal id ev⟩

theorem applySteps_length :
    ∀ (l : List (ServerState → ServerState)) (σ : ServerState),
      (applySteps σ l).length = l.length + 1
  | [], _ => rfl
  | f :: fs, σ => by simp [applySteps, applySteps_length fs (f σ)]

theorem results_resultStep (id : String) (r : ApiResult) (σ : ServerState) :
    (resultStep id r σ).results id = some r := by
  simp [resultStep, setResult, upd]

theorem results_terminalStep (id : String) (r : ApiResult) (σ : ServerState) :
    (terminalStep id r σ).results = σ.results := rfl

theorem statusAt_terminalStep (id : String) (r : ApiResult) (σ : ServerState) :
    statusAt id (terminalStep id r σ) = .completed ∨
      statusAt id (terminalStep id r σ) = .error := by
  unfold terminalStep
  cases h : isSuccessResult r <;>
    simp [h, statusAt_setProgress, completedEntry, errorEntry]

/-- Core C2 invariant: along a worker trace made of non-terminal,
result-preserving updates followed by the result write and the terminal
write, the result is observable exactly at the last two states, and the
status is terminal exactly at the last state. -/
theorem trace_result_window (id : String) (r : ApiResult) :
    ∀ (pre : List (ServerState → ServerState)) (σ1 : ServerState),
      (∀ f ∈ pre, PreservesResults f ∧ WritesNonTerminal id f) →
      σ1.results id = none →
      statusAt id σ1 ≠ .completed →
      statusAt id σ1 ≠ .error →
      ∀ tr, tr = applySteps σ1 (pre ++ [resultStep id r, terminalStep id r]) →
        ∀ i (hi : i < tr.length),
          (((tr.get ⟨i, hi⟩).results id).isSome ↔ tr.length ≤ i + 2) ∧
          ((statusAt id (tr.get ⟨i, hi⟩) = .completed ∨
            statusAt id (tr.get ⟨i, hi⟩) = .error) ↔ i + 1 = tr.length)
  | [], σ1, _, hres, hc, he, tr, htr, i, hi => by
    have hlen3 : tr.length = 3 := by rw [htr]; rfl
    subst htr
    match i, hi with
    | 0, _ =>
      refine ⟨?_, ?_⟩
      · show (σ1.results id).isSome = true ↔ _
        rw [hres, hlen3]
        simp
      · show (statusAt id σ1 = JobStatus.completed ∨ statusAt id σ1 = JobStatus.error) ↔ _
        rw [hlen3]
        simp [hc, he]
    | 1, _ =>
      refine ⟨?_, ?_⟩
      · show ((resultStep id r σ1).results id).isSome = true ↔ _
        rw [results_resultStep, hlen3]
        simp
      · show (statusAt id (resultStep id r σ1) = JobStatus.completed ∨
            statusAt id (resultStep id r σ1) = JobStatus.error) ↔ _
        have e : statusAt id (resultStep id r σ1) = statusAt id σ1 := rfl
        rw [e, hlen3]
        simp [hc, he]
    | 2, _ =>
      refine ⟨?_, ?_⟩
      · show ((terminalStep id r (resultStep id r σ1)).results id).isSome = true ↔ _
        rw [results_terminalStep, results_resultStep, hlen3]
        simp
      · show (statusAt id (terminalStep id r (resultStep id r σ1)) = JobStatus.completed ∨
            statusAt id (terminalStep id r (resultStep id r σ1)) = JobStatus.error) ↔ _
        rw [hlen3]
        exact iff_of_true (statusAt_terminalStep id r (resultStep id r σ1)) rfl
  | f :: fs, σ1, hpre, hres, hc, he, tr, htr, i, hi => by
    have hf := hpre f (by simp)
    have hfs : ∀ g ∈ fs, PreservesResults g ∧ WritesNonTerminal id g :=
      fun g hg => hpre g (by simp [hg])
    have hres2 : (f σ1).results id = none := by rw [hf.1 σ1]; exact hres
    have hlen1 : tr.length = fs.length + 4 := by
      rw [htr, applySteps_length]; simp
    have hlen2 : (applySteps (f σ1) (fs ++ [resultStep id r, terminalStep id r])).length =
        fs.length + 3 := by
      rw [applySteps_length]; simp
    subst htr
    match i, hi with
    | 0, _ =>
      refine ⟨?_, ?_⟩
      · show (σ1.results id).isSome = true ↔ _
        rw [hres, hlen1]
        simp
      · show (statusAt id σ1 = JobStatus.completed ∨ statusAt id σ1 = JobStatus.error) ↔ _
        rw [hlen1]
        simp [hc, he]
    | Nat.succ j, hi =>
      have hi2 : j < (applySteps (f σ1) (fs ++ [resultStep id r, terminalStep id r])).length := by
        rw [hlen2]
        rw [hlen1] at hi
        omega
      have hrec := trace_result_window id r fs (f σ1) hfs hres2 (hf.2 σ1).1 (hf.2 σ1).2
        _ rfl j hi2
      refine ⟨?_, ?_⟩
      · show (((applySteps (f σ1) (fs ++ [resultStep id r, terminalStep id r])).get
          ⟨j, hi2⟩).results id).isSome = true ↔ _
        rw [hrec.1, hlen2, hlen1]
        omega
      · show (statusAt id ((applySteps (f σ1) (fs ++ [resultStep id r, terminalStep id r])).get
          ⟨j, hi2⟩) = JobStatus.completed ∨
          statusAt id ((applySteps (f σ1) (fs ++ [resultStep id r, terminalStep id r])).get
            ⟨j, hi2⟩) = JobStatus.error) ↔ _
        rw [hrec.2, hlen2, hlen1]
        omega

/-- Claim C2 (amended): the JobResult becomes observable exactly at the
moment the worker records it, which is one state-transition before the
terminal progress write: along the job trace the result is present
exactly at the last two states, while the status is terminal (Completed
or Error) exactly at the last state.  So a terminal status always comes
with an observable result, but the result is also observable at exactly
one instant at which the status is still non-terminal. -/
theorem c2_result_window (σ : ServerState) (id url : String) (fmtId : Option String)
    (eng : EngineRun) (h : σ.results id = none) :
    ∀ i (hi : i < (jobTrace σ id url fmtId eng).length),
      ((((jobTrace σ id url fmtId eng).get ⟨i, hi⟩).results id).isSome ↔
        (jobTrace σ id url fmtId eng).length ≤ i + 2) ∧
      ((statusAt id ((jobTrace σ id url fmtId eng).get ⟨i, hi⟩) = .completed ∨
        statusAt id ((jobTrace σ id url fmtId eng).get ⟨i, hi⟩) = .error) ↔
        i + 1 = (jobTrace σ id url fmtId eng).length) := by
  intro i hi
  exact trace_result_window id (downloadVideoWeb id url fmtId eng).result
    (downloadVideoWeb id url fmtId eng).steps (setProgress id startingEntry σ)
    (downloadVideoWeb_steps_ok id url fmtId eng)
    h
    (by rw [statusAt_setProgress]; exact fun he => JobStatus.noConfusion he)
    (by rw [statusAt_setProgress]; exact fun he => JobStatus.noConfusion he)
    _ rfl i hi

/-- The trace of an invalid-URL job, used as the C2 counterexample. -/
def c2Trace : List ServerState :=
  jobTrace emptyState "download_1" "not-a-url" none ⟨.ok none, [], .ok⟩

/-- Claim C2 counterexample: at the state reached right after the worker
records the result and before the terminal write, a poller observes a
JobResult while the status is still `starting`: a result is observable
strictly before the terminal status is entered. -/
theorem c2_counterexample_result_before_terminal :
    c2Trace.length = 3 ∧
    ((c2Trace.get ⟨1, by decide⟩).results "download_1").isSome = true ∧
    statusAt "download_1" (c2Trace.get ⟨1, by decide⟩) = .starting :=
  ⟨rfl, by decide, by decide⟩

/-- Witness for the amended C2 theorem on a concrete job: the final state
of the trace is terminal. -/
theorem c2_result_window_witness :
    (statusAt "download_1" (c2Trace.get ⟨2, by decide⟩) = JobStatus.completed ∨
      statusAt "download_1" (c2Trace.get ⟨2, by decide⟩) = JobStatus.error) ↔
      2 + 1 = c2Trace.length :=
  (c2_result_window emptyState "download_1" "not-a-url" none ⟨.ok none, [], .ok⟩ rfl
    2 (by decide)).2

/-! ### Claim C3: status ordering along a trace -/

/-- The position of each status in the lifecycle ordering; `error` is
placed on top so that a single monotonicity statement also expresses
that `error` is terminal. -/
def statusRank : JobStatus → Nat
  | .starting => 0
  | .extracting => 1
  | .downloading => 2
  | .finished => 3
  | .completed => 4
  | .error => 5
  | .unknown => 0

/-- One admissible observation step: the rank never decreases, and a job
seen `completed` is never seen otherwise again. -/
def statusStep (x y : JobStatus) : Prop :=
  statusRank x ≤ statusRank y ∧ (x = .completed → y = .completed)

instance : IsTrans JobStatus statusStep :=
  ⟨fun _ _ _ h1 h2 => ⟨le_trans h1.1 h2.1, fun hx => h2.2 (h1.2 hx)⟩⟩

theorem head_map_applySteps (id : String) (σ : ServerState)
    (l : List (ServerState → ServerState)) :
    ((applySteps σ l).map (statusAt id)).head? = some (statusAt id σ) := by
  cases l <;> rfl

theorem chain_fin (id : String) (r : ApiResult) :
    ∀ (fin : List HookEvent) (σ : ServerState),
      (∀ e ∈ fin, ∃ fn, e = HookEvent.finished fn) →
      statusRank (statusAt id σ) ≤ 3 →
      List.Chain' statusStep
        ((applySteps σ (fin.map (hookStep id) ++
          [resultStep id r, terminalStep id r])).map (statusAt id))
  | [], σ, _, hrank => by
    show List.Chain' statusStep [statusAt id σ, statusAt id (resultStep id r σ),
      statusAt id (terminalStep id r (resultStep id r σ))]
    have e1 : statusAt id (resultStep id r σ) = statusAt id σ := rfl
    rw [e1]
    have hterm := statusAt_terminalStep id r (resultStep id r σ)
    have hst : statusStep (statusAt id σ)
        (statusAt id (terminalStep id r (resultStep id r σ))) := by
      rcases hterm with h | h
      · rw [h]
        exact ⟨le_trans hrank (by decide), fun _ => rfl⟩
      · rw [h]
        refine ⟨le_trans hrank (by decide), fun hs => ?_⟩
        rw [hs] at hrank
        exact absurd hrank (by decide)
    exact List.chain'_cons.2 ⟨⟨le_refl _, fun hx => hx⟩,
      List.chain'_cons.2 ⟨hst, List.chain'_singleton _⟩⟩
  | e :: fin, σ, hfin, hrank => by
    obtain ⟨fn, rfl⟩ := hfin (e := e) (by simp)
    have hnext : statusAt id (hookStep id (.finished fn) σ) = .finished := by
      simp [hookStep, statusAt_setProgress, hookEntry, finishedEntry]
    show List.Chain' statusStep (statusAt id σ ::
      (applySteps (hookStep id (.finished fn) σ)
        (fin.map (hookStep id) ++ [resultStep id r, terminalStep id r])).map (statusAt id))
    refine List.chain'_cons'.2 ⟨?_, ?_⟩
    · intro y hy
      rw [head_map_applySteps] at hy
      have hy2 : statusAt id (hookStep id (.finished fn) σ) = y := by
        simpa using hy
      rw [← hy2, hnext]
      exact ⟨le_trans hrank (by decide),
        fun hs => by rw [hs] at hrank; exact absurd hrank (by decide)⟩
    · exact chain_fin id r fin (hookStep id (.finished fn) σ)
        (fun e2 he2 => hfin e2 (by simp [he2])) (by rw [hnext]; decide)

theorem chain_dl (id : String) (r : ApiResult) :
    ∀ (dl fin : List HookEvent) (σ : ServerState),
      (∀ e ∈ dl, ∃ p s t f, e = HookEvent.downloading p s t f) →
      (∀ e ∈ fin, ∃ fn, e = HookEvent.finished fn) →
      statusRank (statusAt id σ) ≤ 2 →
      List.Chain' statusStep
        ((applySteps σ ((dl ++ fin).map (hookStep id) ++
          [resultStep id r, terminalStep id r])).map (statusAt id))
  | [], fin, σ, _, hfin, hrank => chain_fin id r fin σ hfin (le_trans hrank (by omega))
  | e :: dl, fin, σ, hdl, hfin, hrank => by
    obtain ⟨p, s2, t2, f2, rfl⟩ := hdl (e := e) (by simp)
    have hnext : statusAt id (hookStep id (.downloading p s2 t2 f2) σ) = .downloading := by
      simp [hookStep, statusAt_setProgress, hookEntry, downloadingEntry]
    show List.Chain' statusStep (statusAt id σ ::
      (applySteps (hookStep id (.downloading p s2 t2 f2) σ)
        ((dl ++ fin).map (hookStep id) ++ [resultStep id r, terminalStep id r])).map
        (statusAt id))
    refine List.chain'_cons'.2 ⟨?_, ?_⟩
    · intro y hy
      rw [head_map_applySteps] at hy
      have hy2 : statusAt id (hookStep id (.downloading p s2 t2 f2) σ) = y := by
        simpa using hy
      rw [← hy2, hnext]
      exact ⟨le_trans hrank (by decide),
        fun hs => by rw [hs] at hrank; exact absurd hrank (by decide)⟩
    · exact chain_dl id r dl fin (hookStep id (.downloading p s2 t2 f2) σ)
        (fun e2 he2 => hdl e2 (by simp [he2])) hfin (by rw [hnext]; decide)

/-- Claim C3: for a job whose fetch reports its hook events in the usual
order (a run of `downloading` events followed by `finished` events — the
single-file contract of the engine), the statuses observable by repeated
polling never regress: the rank never decreases along the trace (so the
dedup of the observation sequence is a gappy subsequence of `Starting,
Extracting, Downloading, Finished, Completed` or ends in `Error`),
`Completed` is never left once entered, and — because only `error` sits
above `completed` in the rank — `Error` is terminal. -/
theorem c3_poll_status_monotone (σ : ServerState) (id url : String)
    (fmtId : Option String) (eng : EngineRun)
    (hwf : ∃ dl fin : List HookEvent,
      eng.hooks = dl ++ fin ∧
      (∀ e ∈ dl, ∃ p s t f, e = HookEvent.downloading p s t f) ∧
      (∀ e ∈ fin, ∃ f, e = HookEvent.finished f)) :
    List.Pairwise statusStep ((jobTrace σ id url fmtId eng).map (statusAt id)) := by
  obtain ⟨dl, fin, hhooks, hdl, hfin⟩ := hwf
  refine List.chain'_iff_pairwise.1 ?_
  have hstart : statusAt id (setProgress id startingEntry σ) = .starting :=
    statusAt_setProgress ..
  rcases downloadVideoWeb_steps_cases id url fmtId eng with hs | hs | hs
  · show List.Chain' statusStep ((applySteps (setProgress id startingEntry σ)
      ((downloadVideoWeb id url fmtId eng).steps ++
        [resultStep id (downloadVideoWeb id url fmtId eng).result,
         terminalStep id (downloadVideoWeb id url fmtId eng).result])).map (statusAt id))
    rw [hs]
    exact chain_fin id (downloadVideoWeb id url fmtId eng).result []
      (setProgress id startingEntry σ) (by simp) (by rw [hstart]; decide)
  · show List.Chain' statusStep ((applySteps (setProgress id startingEntry σ)
      ((downloadVideoWeb id url fmtId eng).steps ++
        [resultStep id (downloadVideoWeb id url fmtId eng).result,
         terminalStep id (downloadVideoWeb id url fmtId eng).result])).map (statusAt id))
    rw [hs]
    show List.Chain' statusStep (statusAt id (setProgress id startingEntry σ) ::
      (applySteps (setProgress id extractingEntry (setProgress id startingEntry σ))
        ([] ++ [resultStep id (downloadVideoWeb id url fmtId eng).result,
          terminalStep id (downloadVideoWeb id url fmtId eng).result])).map (statusAt id))
    refine List.chain'_cons'.2 ⟨?_, ?_⟩
    · intro y hy
      rw [head_map_applySteps] at hy
      have hy2 : statusAt id (setProgress id extractingEntry
          (setProgress id startingEntry σ)) = y := by simpa using hy
      rw [statusAt_setProgress] at hy2
      rw [← hy2, statusAt_setProgress]
      exact ⟨by decide, fun hx => JobStatus.noConfusion hx⟩
    · exact chain_fin id (downloadVideoWeb id url fmtId eng).result []
        (setProgress id extractingEntry (setProgress id startingEntry σ)) (by simp)
        (by rw [statusAt_setProgress]; decide)
  · show List.Chain' statusStep ((applySteps (setProgress id startingEntry σ)
      ((downloadVideoWeb id url fmtId eng).steps ++
        [resultStep id (downloadVideoWeb id url fmtId eng).result,
         terminalStep id (downloadVideoWeb id url fmtId eng).result])).map (statusAt id))
    rw [hs, hhooks]
    show List.Chain' statusStep (statusAt id (setProgress id startingEntry σ) ::
      (applySteps (setProgress id extractingEntry (setProgress id startingEntry σ))
        ((dl ++ fin).map (hookStep id) ++
          [resultStep id (downloadVideoWeb id url fmtId eng).result,
           terminalStep id (downloadVideoWeb id url fmtId eng).result])).map (statusAt id))
    refine List.chain'_cons'.2 ⟨?_, ?_⟩
    · intro y hy
      rw [head_map_applySteps] at hy
      have hy2 : statusAt id (setProgress id extractingEntry
          (setProgress id startingEntry σ)) = y := by simpa using hy
      rw [statusAt_setProgress] at hy2
      rw [← hy2, statusAt_setProgress]
      exact ⟨by decide, fun hx => JobStatus.noConfusion hx⟩
    · exact chain_dl id (downloadVideoWeb id url fmtId eng).result dl fin
        (setProgress id extractingEntry (setProgress id startingEntry σ)) hdl hfin
        (by rw [statusAt_setProgress]; decide)

/-- A successful engine behaviour used by the C3 witness. -/
def engGood : EngineRun :=
  ⟨.ok (some infoSingle),
    [.downloading "50%" "1MiB per s" "5s" "clip.mp4", .finished "clip.mp4"], .ok⟩

/-- Witness for C3 on a concrete successful job. -/
theorem c3_poll_status_monotone_witness :
    List.Pairwise statusStep
      ((jobTrace emptyState "download_1" "https://x.com/a/status/1" none engGood).map
        (statusAt "download_1")) :=
  c3_poll_status_monotone emptyState "download_1" "https://x.com/a/status/1" none engGood
    ⟨[.downloading "50%" "1MiB per s" "5s" "clip.mp4"], [.finished "clip.mp4"], rfl,
      fun e he => ⟨"50%", "1MiB per s", "5s", "clip.mp4", by simpa using he⟩,
      fun e he => ⟨"clip.mp4", by simpa using he⟩⟩

end TVD
